import Mathlib

/-!
Shallow embedding of the EOB extraction pipeline
(`src/helper.py` `all_helpers` and `src/processor.py` `process_pdf`).

Python values that flow through `combine_records` are modelled by the
inductive `Json` below (the image of `json.loads`).  Python dicts are
association lists in insertion order; `dict.values()` is `List.map Prod.snd`.
Python `str.strip()` is modelled by dropping leading and trailing
whitespace characters from the string's character list.
-/

/-- A parsed JSON value (the image of Python's `json.loads`): objects are
association lists in insertion order. -/
inductive Json where
  | null : Json
  | bool (b : Bool) : Json
  | num (n : Int) : Json
  | str (s : String) : Json
  | arr (elts : List Json) : Json
  | obj (fields : List (String × Json)) : Json

/-- Python truthiness of a JSON-shaped value (`bool(x)`): `None`, `False`,
`0`, `""`, `[]` and `{}` are falsy. -/
def pyTruthy : Json → Bool
  | .null => false
  | .bool b => b
  | .num n => n != 0
  | .str s => s != ""
  | .arr elts => !elts.isEmpty
  | .obj fields => !fields.isEmpty

/-- Python `x or y` specialised to the uses in `combine_records`: the left
value if truthy, else the right. -/
def pyOr (x y : Json) : Json := if pyTruthy x then x else y

/-- Lookup in a Python dict modelled as an association list (`d[k]` /
`d.get(k)` without the default). -/
def jGet (fields : List (String × Json)) (k : String) : Option Json :=
  (fields.find? (fun p => p.1 == k)).map Prod.snd

/-- Python `d[k] = v` on a dict: replace in place when the key exists,
append the new key otherwise (insertion order preserved). -/
def objSet (fields : List (String × Json)) (k : String) (v : Json) :
    List (String × Json) :=
  match fields with
  | [] => [(k, v)]
  | (k', v') :: rest =>
    if k' == k then (k, v) :: rest else (k', v') :: objSet rest k v

/-- Python `x.get(k)` on an arbitrary value: returns the value (or `None`
when the key is absent) when `x` is a dict, raises `AttributeError`
otherwise. -/
def pyGetAttr (x : Json) (k : String) : Except String Json :=
  match x with
  | .obj fields => .ok ((jGet fields k).getD .null)
  | _ => .error "AttributeError: get"

/-- Python `x.get(k, d)` with an explicit default. -/
def pyGetD (x : Json) (k : String) (d : Json) : Except String Json :=
  match x with
  | .obj fields => .ok ((jGet fields k).getD d)
  | _ => .error "AttributeError: get"

/-- Python iteration `for e in x`: lists yield their elements, dicts their
keys, strings their characters; anything else raises `TypeError`. -/
def pyElems : Json → Except String (List Json)
  | .arr elts => .ok elts
  | .obj fields => .ok (fields.map (fun p => Json.str p.1))
  | .str s => .ok (s.data.map (fun c => Json.str (String.singleton c)))
  | _ => .error "TypeError: not iterable"

/-- Whitespace-trimming on a character list: drop leading and trailing
whitespace. -/
def trimChars (cs : List Char) : List Char :=
  ((cs.dropWhile Char.isWhitespace).reverse.dropWhile Char.isWhitespace).reverse

/-- Python `x.strip()`: trims whitespace from a string, raises
`AttributeError` on a non-string. -/
def pyStrip (x : Json) : Except String String :=
  match x with
  | .str s => .ok (String.mk (trimChars s.data))
  | _ => .error "AttributeError: strip"

/-- One page's raw LLM output as handed to `combine_records`: the Python
string's truthiness (`if not blob`) and the result of `json.loads` on it
(`none` when `json.loads` raises `JSONDecodeError`). -/
structure Blob where
  empty : Bool
  parse : Option Json

namespace all_helpers

/-- `helper.py` lines 287-288: `claim_meta = (record.get("Claim") or
\x7b\x7d).get("ClaimNum") or \x7b\x7d; claim_id = (claim_meta.get("value") or
"").strip()`. -/
def claimIdOf (record : Json) : Except String String :=
  match pyGetAttr record "Claim" with
  | .error e => .error e
  | .ok claimVal =>
    match pyGetAttr (pyOr claimVal (.obj [])) "ClaimNum" with
    | .error e => .error e
    | .ok claimNum =>
      match pyGetAttr (pyOr claimNum (.obj [])) "value" with
      | .error e => .error e
      | .ok value => pyStrip (pyOr value (.str ""))

/-- `helper.py` lines 297-301: merge a duplicate record into the existing
one for the same claim id — `existing_procs = existing.get("Procs") or [];
new_procs = record.get("Procs") or []; existing_procs.extend(new_procs);
existing["Procs"] = existing_procs`.  `list.extend` requires the existing
value to be a list and iterates the new one. -/
def mergeInto (combined : List (String × Json)) (claimId : String)
    (existing record : Json) : Except String (List (String × Json)) :=
  match existing with
  | .obj efields =>
    match record with
    | .obj rfields =>
      match pyOr ((jGet efields "Procs").getD .null) (.arr []) with
      | .arr elist =>
        match pyElems (pyOr ((jGet rfields "Procs").getD .null) (.arr [])) with
        | .error e => .error e
        | .ok nlist =>
          .ok (objSet combined claimId
            (.obj (objSet efields "Procs" (.arr (elist ++ nlist)))))
      | _ => .error "AttributeError: extend"
    | _ => .error "AttributeError: get"
  | _ => .error "AttributeError: get"

/-- `helper.py` lines 286-301, body of `for record in payload.get("Records",
[])`: skip records whose trimmed claim id is empty, insert first
occurrences, merge duplicates. -/
def processRecord (combined : List (String × Json)) (record : Json) :
    Except String (List (String × Json)) :=
  match claimIdOf record with
  | .error e => .error e
  | .ok claimId =>
    if claimId = "" then .ok combined
    else
      match jGet combined claimId with
      | none => .ok (combined ++ [(claimId, record)])
      | some existing => mergeInto combined claimId existing record

/-- `helper.py` lines 277-286: the records contributed by one blob — none
when the blob is falsy or `json.loads` fails (the `continue` branches),
otherwise the iteration of `payload.get("Records", [])`. -/
def recordsOfBlob (blob : Blob) : Except String (List Json) :=
  if blob.empty then .ok []
  else
    match blob.parse with
    | none => .ok []
    | some payload =>
      match pyGetD payload "Records" (.arr []) with
      | .error e => .error e
      | .ok recsVal => pyElems recsVal

/-- One iteration of the outer `for blob in json_strings` loop of
`combine_records`. -/
def processBlob (combined : List (String × Json)) (blob : Blob) :
    Except String (List (String × Json)) :=
  match recordsOfBlob blob with
  | .error e => .error e
  | .ok recs => recs.foldlM processRecord combined

/-- The internal ordered mapping `combined` of `combine_records` after all
blobs are folded in (`helper.py` lines 275-301). -/
def combinedMapOf (blobs : List Blob) :
    Except String (List (String × Json)) :=
  blobs.foldlM processBlob []

/-- `all_helpers.combine_records` (`helper.py` lines 265-303): returns the
`"Records"` value of the result, `list(combined.values())`. -/
def combine_records (blobs : List Blob) : Except String (List Json) :=
  match combinedMapOf blobs with
  | .error e => .error e
  | .ok combined => .ok (combined.map Prod.snd)

end all_helpers

/-- The result dict initialised at `processor.py` lines 35-40 and returned
by `process_pdf`. -/
structure PipelineResult where
  Records : List Json
  TotalTokens : Nat
  WarningCodes : List String
  Error : String

/-- The documented shape of the Record Merger collaborator's return value,
`\x7b"Records": [...]\x7d`. -/
structure CombineOut where
  Records : List Json

/-- The collaborators `process_pdf` calls on the `helper` object.  Each call
that can raise a Python exception is modelled as `Except String`, the error
carrying `str(e)`.  `llm_processing` may return `None` (`Option.none`). -/
structure Collaborators where
  presign_s3url : String → Except String String
  get_text_and_tables_from_url : String → Except String (Option (List String))
  count_tokens : String → Except String Nat
  llm_processing : String → String → Except String (Option String)
  combine_records : List String → Except String CombineOut

/-- How the per-page loop of `process_pdf` ends: an uncaught fault
(`count_tokens` is called outside any `try` block, line 68), a caught
`llm_processing` fault turned into the `Error` field (lines 72-75), or
completion with the accumulated token count, fragment list and final
context. -/
inductive LoopOutcome where
  | fault (e : String)
  | pageError (msg : String)
  | done (tokens : Nat) (jsons : List String) (context : String)

/-- `processor.py` lines 67-79, the `for page_number, text in
enumerate(payloads, start=1)` loop, instrumented: the second component
records the `(context_json, text)` argument pairs of every call made to
`llm_processing`, in order. -/
def processPages (C : Collaborators) :
    List String → Nat → Nat → List String → String →
    LoopOutcome × List (String × String)
  | [], _, tokens, jsons, context => (.done tokens jsons context, [])
  | text :: rest, pn, tokens, jsons, context =>
    match C.count_tokens text with
    | .error e => (.fault e, [])
    | .ok n =>
      match C.llm_processing context text with
      | .error e =>
        (.pageError ("Failed to process page via llm_processing for page: "
          ++ toString pn ++ ": " ++ e), [(context, text)])
      | .ok none =>
        let r := processPages C rest (pn + 1) (tokens + n) jsons context
        (r.1, (context, text) :: r.2)
      | .ok (some output) =>
        let r := processPages C rest (pn + 1) (tokens + n)
          (jsons ++ [output]) output
        (r.1, (context, text) :: r.2)

/-- `processor.py` `process_pdf` (lines 19-91) over abstract collaborators.
`Except.error` models a Python exception escaping `process_pdf`; every
caught failure is an `Except.ok` result whose `Error` field is set. -/
def process_pdf (C : Collaborators) (pdf_key filename : String) :
    Except String PipelineResult :=
  let records : PipelineResult :=
    { Records := [], TotalTokens := 0, WarningCodes := [], Error := "" }
  match C.presign_s3url pdf_key with
  | .error e => .ok { records with Error := "Failed to presign S3 URL: " ++ e }
  | .ok presigned_url =>
    match C.get_text_and_tables_from_url presigned_url with
    | .error e =>
      .ok { records with
        Error := "Failed to get text and tables from URL: " ++ e }
    | .ok none =>
      .ok { records with
        Error := "Generated payload out of get_text_and_tables_from_url is None" }
    | .ok (some payloads) =>
      match (processPages C payloads 1 0 [] "").1 with
      | .fault e => .error e
      | .pageError msg => .ok { records with Error := msg }
      | .done token_count jsons _ =>
        match C.combine_records jsons with
        | .error e =>
          .ok { records with Error := "Failed to combine records: " ++ e }
        | .ok combined_json =>
          .ok { records with
            Records := combined_json.Records,
            TotalTokens := token_count + 4000 }

/-- The `(context, page_text)` argument pairs `process_pdf` passes to
`llm_processing` over a whole run, in call order (none when the run fails
before the page loop). -/
def llm_calls (C : Collaborators) (pdf_key : String) :
    List (String × String) :=
  match C.presign_s3url pdf_key with
  | .error _ => []
  | .ok presigned_url =>
    match C.get_text_and_tables_from_url presigned_url with
    | .ok (some payloads) => (processPages C payloads 1 0 [] "").2
    | _ => []

/-- Collaborators for a document with no extractable content: the extractor
returns the empty page sequence — as `get_text_and_tables_from_url` does
when the OCR result is `None` (`helper.py` lines 184-185), since its only
returns are `[]` and a list — and the merger on no fragments returns
`\x7b"Records": []\x7d`. -/
def emptyDocC : Collaborators where
  presign_s3url := fun k => .ok ("https://signed/" ++ k)
  get_text_and_tables_from_url := fun _ => .ok (some [])
  count_tokens := fun t => .ok t.length
  llm_processing := fun _ _ => .ok none
  combine_records := fun _ => .ok { Records := [] }

/-- Collaborators whose token counter always raises (tiktoken can raise,
e.g. while fetching an encoding); every other collaborator behaves. -/
def tokenFaultC : Collaborators where
  presign_s3url := fun k => .ok ("https://signed/" ++ k)
  get_text_and_tables_from_url := fun _ => .ok (some ["page one text"])
  count_tokens := fun _ => .error "boom"
  llm_processing := fun _ _ => .ok none
  combine_records := fun _ => .ok { Records := [] }

/-- Collaborators where everything succeeds (used to instantiate
hypotheses of the orchestrator theorems). -/
def happyC : Collaborators where
  presign_s3url := fun k => .ok ("https://signed/" ++ k)
  get_text_and_tables_from_url := fun _ => .ok (some ["P1", "P2"])
  count_tokens := fun t => .ok t.length
  llm_processing := fun _ page => .ok (some ("out:" ++ page))
  combine_records := fun _ => .ok { Records := [] }

/-- If the per-page loop is never started with a faulting token counter,
its outcome is never `fault`: `llm_processing` errors are caught and
everything else completes the loop. -/
theorem processPages_no_fault (C : Collaborators)
    (hcount : ∀ t, ∃ n, C.count_tokens t = .ok n) :
    ∀ pages pn tokens jsons context e,
      (processPages C pages pn tokens jsons context).1 ≠ .fault e := by
  intro pages
  induction pages with
  | nil => intro pn tokens jsons context e h; simp [processPages] at h
  | cons t rest ih =>
    intro pn tokens jsons context e h
    obtain ⟨n, hn⟩ := hcount t
    rw [processPages, hn] at h
    rcases hl : C.llm_processing context t with e' | o
    · rw [hl] at h; simp at h
    · rw [hl] at h
      cases o with
      | none => exact ih _ _ _ _ e h
      | some out => exact ih _ _ _ _ e h

/-- Splitting the page loop: once a prefix of the pages completes with
`done`, running the loop on the prefix followed by more pages continues
from the state the prefix reached, with the page counter advanced by the
prefix's length and the call trace concatenated. -/
theorem processPages_append (C : Collaborators) (pre : List String) :
    ∀ (more : List String) (pn tokens : Nat) (jsons : List String)
      (context : String) (tokens' : Nat) (jsons' : List String)
      (context' : String) (calls : List (String × String)),
      processPages C pre pn tokens jsons context =
        (.done tokens' jsons' context', calls) →
      processPages C (pre ++ more) pn tokens jsons context =
        ((processPages C more (pn + pre.length) tokens' jsons' context').1,
         calls ++ (processPages C more (pn + pre.length) tokens' jsons' context').2) := by
  induction pre with
  | nil =>
    intro more pn tokens jsons context tokens' jsons' context' calls h
    rw [processPages] at h
    obtain ⟨h1, h2⟩ := Prod.mk.injEq .. ▸ h
    cases h1
    cases h2
    simp
  | cons t rest ih =>
    intro more pn tokens jsons context tokens' jsons' context' calls h
    rw [processPages] at h
    rcases hn : C.count_tokens t with e | n <;> rw [hn] at h
    · simp at h
    rcases hl : C.llm_processing context t with e | o <;> rw [hl] at h
    · simp at h
    cases o with
    | none =>
      simp only at h
      obtain ⟨h1, h2⟩ := Prod.mk.injEq .. ▸ h
      have hpair : processPages C rest (pn + 1) (tokens + n) jsons context =
          (.done tokens' jsons' context',
           (processPages C rest (pn + 1) (tokens + n) jsons context).2) := by
        rw [← h1]
      have hstep := ih more (pn + 1) (tokens + n) jsons context
        tokens' jsons' context' _ hpair
      show processPages C (t :: (rest ++ more)) pn tokens jsons context = _
      rw [processPages, hn, hl]
      simp only [hstep]
      have hlen : pn + 1 + rest.length = pn + (t :: rest).length := by
        simp; omega
      rw [hlen, ← h2]
      simp
    | some out =>
      simp only at h
      obtain ⟨h1, h2⟩ := Prod.mk.injEq .. ▸ h
      have hpair : processPages C rest (pn + 1) (tokens + n) (jsons ++ [out]) out =
          (.done tokens' jsons' context',
           (processPages C rest (pn + 1) (tokens + n) (jsons ++ [out]) out).2) := by
        rw [← h1]
      have hstep := ih more (pn + 1) (tokens + n) (jsons ++ [out]) out
        tokens' jsons' context' _ hpair
      show processPages C (t :: (rest ++ more)) pn tokens jsons context = _
      rw [processPages, hn, hl]
      simp only [hstep]
      have hlen : pn + 1 + rest.length = pn + (t :: rest).length := by
        simp; omega
      rw [hlen, ← h2]
      simp

/-- When the token counter is the total function `f` and `llm_processing`
never faults, the page loop always completes, and its token accumulator
grows by the sum of `f` over the pages. -/
theorem processPages_all_ok (C : Collaborators) (f : String → Nat)
    (ell : String → String → Option String)
    (hcount : ∀ t, C.count_tokens t = .ok (f t))
    (hllm : ∀ c t, C.llm_processing c t = .ok (ell c t)) :
    ∀ (pages : List String) (pn tokens : Nat) (jsons : List String)
      (context : String),
      ∃ jsons' context' calls,
        processPages C pages pn tokens jsons context =
          (.done (tokens + (pages.map f).sum) jsons' context', calls) := by
  intro pages
  induction pages with
  | nil =>
    intro pn tokens jsons context
    exact ⟨jsons, context, [], by simp [processPages]⟩
  | cons t rest ih =>
    intro pn tokens jsons context
    rcases ho : ell context t with _ | out
    · obtain ⟨jsons', context', calls, hrec⟩ :=
        ih (pn + 1) (tokens + f t) jsons context
      refine ⟨jsons', context', (context, t) :: calls, ?_⟩
      rw [processPages, hcount t, hllm context t, ho]
      simp only
      rw [hrec]
      simp [Nat.add_assoc]
    · obtain ⟨jsons', context', calls, hrec⟩ :=
        ih (pn + 1) (tokens + f t) (jsons ++ [out]) out
      refine ⟨jsons', context', (context, t) :: calls, ?_⟩
      rw [processPages, hcount t, hllm context t, ho]
      simp only
      rw [hrec]
      simp [Nat.add_assoc]

/-- C1: evaluation at the failing input.  When the Document-Text Extractor
returns an empty page sequence — which is what
`get_text_and_tables_from_url` produces for a document with no extractable
content (its only returns are `[]` and a non-empty list, never `None`) —
`process_pdf` silently succeeds: the result has `Error == ""`, `Records ==
[]` and `TotalTokens` equal to the bare overhead constant.  The `payloads
is None` guard at `processor.py` line 61 never fires, so the claimed
terminal failure does not happen. -/
theorem C1_empty_extraction_silently_succeeds :
    process_pdf emptyDocC "eobs/doc.pdf" "doc.pdf" =
      .ok { Records := [], TotalTokens := 4000, WarningCodes := [],
            Error := "" } := rfl

/-- C10: every result `process_pdf` returns — on success and on every
caught failure alike — carries an empty `WarningCodes` list: the field is
initialised to `[]` at `processor.py` line 38 and never written again. -/
theorem C10_warning_codes_always_empty (C : Collaborators)
    (pdf_key filename : String) (r : PipelineResult)
    (h : process_pdf C pdf_key filename = .ok r) : r.WarningCodes = [] := by
  simp only [process_pdf] at h
  repeat' split at h
  all_goals first
    | exact (Except.noConfusion h)
    | (simp only [Except.ok.injEq] at h; subst h; rfl)

theorem C10_witness :
    ({ Records := [], TotalTokens := 4004, WarningCodes := [],
       Error := "" } : PipelineResult).WarningCodes = ([] : List String) :=
  C10_warning_codes_always_empty happyC "k" "f" _ rfl

/-- C9 counterexample: a fault raised by the token-counting collaborator is
NOT caught — `token_count += helper.count_tokens(text)` (`processor.py`
line 68) sits outside every `try` block, so the exception propagates to
`process_pdf`'s caller as a language-level fault instead of being converted
into the `Error` field. -/
theorem C9_cex_token_fault_propagates :
    process_pdf tokenFaultC "eobs/doc.pdf" "doc.pdf" = .error "boom" := rfl

/-- C9 (amended): provided the token counter never faults, `process_pdf`
never propagates a language-level fault: every presign, extraction, LLM or
merge failure is caught and returned as an ordinary result. -/
theorem C9_faults_converted_to_error_field (C : Collaborators)
    (pdf_key filename : String)
    (hcount : ∀ t, ∃ n, C.count_tokens t = .ok n) :
    ∃ r, process_pdf C pdf_key filename = .ok r := by
  rcases hres : process_pdf C pdf_key filename with e | r
  · exfalso
    simp only [process_pdf] at hres
    repeat' split at hres
    any_goals exact (Except.noConfusion hres)
    rename_i heqf
    exact processPages_no_fault C hcount _ 1 0 [] "" _ heqf
  · exact ⟨r, rfl⟩

theorem C9_witness : ∃ r, process_pdf happyC "k" "f" = .ok r :=
  C9_faults_converted_to_error_field happyC "k" "f" (fun t => ⟨t.length, rfl⟩)

/-- Collaborators for a 3-page document where page 2's extraction returns
the empty string (a falsy but non-`None` output). -/
def emptyOutputC : Collaborators where
  presign_s3url := fun k => .ok ("https://signed/" ++ k)
  get_text_and_tables_from_url := fun _ => .ok (some ["P1", "P2", "P3"])
  count_tokens := fun t => .ok t.length
  llm_processing := fun _ page =>
    if page = "P1" then .ok (some "O1")
    else if page = "P2" then .ok (some "")
    else .ok (some "O3")
  combine_records := fun _ => .ok { Records := [] }

/-- Collaborators for a 3-page document where page 2's extraction returns
`None`. -/
def skipPageC : Collaborators where
  presign_s3url := fun k => .ok ("https://signed/" ++ k)
  get_text_and_tables_from_url := fun _ => .ok (some ["P1", "P2", "P3"])
  count_tokens := fun t => .ok t.length
  llm_processing := fun _ page =>
    if page = "P1" then .ok (some "O1")
    else if page = "P2" then .ok none
    else .ok (some "O3")
  combine_records := fun _ => .ok { Records := [] }

/-- C2 counterexample: only `None` is skipped — `if output is None`
(`processor.py` line 76).  On a 3-page document where page 1 yields `"O1"`
and page 2's extraction returns the empty string, the empty output IS
appended to the fragment list and DOES overwrite the context: page 3's
call receives context `""`, not page 1's output `"O1"`, and the loop ends
with fragment list `["O1", "", "O3"]`. -/
theorem C2_cex_empty_output_breaks_chain :
    llm_calls emptyOutputC "k" = [("", "P1"), ("O1", "P2"), ("", "P3")] ∧
    (processPages emptyOutputC ["P1", "P2", "P3"] 1 0 [] "").1 =
      .done 6 ["O1", "", "O3"] "O3" := ⟨rfl, rfl⟩

/-- C2 (amended): for every page whose Field Extractor call returns `None`
(and only `None`), the orchestrator skips appending that page's output and
preserves the prior context unchanged; in particular, for a 3-page
document where page 2's extraction returns `None`, the context passed to
page 3's extraction call equals page 1's output verbatim. -/
theorem C2_none_preserves_context (C : Collaborators)
    (pdf_key url p1 p2 p3 o1 : String) (n1 n2 n3 : Nat)
    (hpre : C.presign_s3url pdf_key = .ok url)
    (hext : C.get_text_and_tables_from_url url = .ok (some [p1, p2, p3]))
    (h1 : C.count_tokens p1 = .ok n1)
    (h2 : C.count_tokens p2 = .ok n2)
    (h3 : C.count_tokens p3 = .ok n3)
    (hl1 : C.llm_processing "" p1 = .ok (some o1))
    (hl2 : C.llm_processing o1 p2 = .ok none) :
    llm_calls C pdf_key = [("", p1), (o1, p2), (o1, p3)] ∧
    ∀ ctx t n rest pn tokens jsons,
      C.count_tokens t = .ok n →
      C.llm_processing ctx t = .ok none →
      processPages C (t :: rest) pn tokens jsons ctx =
        ((processPages C rest (pn + 1) (tokens + n) jsons ctx).1,
         (ctx, t) :: (processPages C rest (pn + 1) (tokens + n) jsons ctx).2) := by
  constructor
  · rcases hl3 : C.llm_processing o1 p3 with e | o
    · simp [llm_calls, hpre, hext, processPages, h1, h2, h3, hl1, hl2, hl3]
    · cases o <;>
        simp [llm_calls, hpre, hext, processPages, h1, h2, h3, hl1, hl2, hl3]
  · intro ctx t n rest pn tokens jsons hcnt hnone
    rw [processPages, hcnt, hnone]

theorem C2_witness :
    llm_calls skipPageC "k" = [("", "P1"), ("O1", "P2"), ("O1", "P3")] :=
  (C2_none_preserves_context skipPageC "k" "https://signed/k" "P1" "P2" "P3"
    "O1" 2 2 2 rfl rfl rfl rfl rfl rfl rfl).1

/-- Collaborators for a 3-page document whose Field Extractor faults on
page 2 (after page 1 produced `"O1"`). -/
def faultPage2C : Collaborators where
  presign_s3url := fun k => .ok ("https://signed/" ++ k)
  get_text_and_tables_from_url := fun _ => .ok (some ["P1", "P2", "P3"])
  count_tokens := fun t => .ok t.length
  llm_processing := fun _ page =>
    if page = "P1" then .ok (some "O1") else .error "llm down"
  combine_records := fun _ => .ok { Records := [] }

/-- C3: if the Field Extractor faults on the page after a completed prefix
`pre` (page number `pre.length + 1`), `process_pdf` returns immediately
with that page's non-empty error message, `Records == []` and
`TotalTokens == 0` (the running count is discarded), and the Field
Extractor is invoked exactly for the prefix's calls plus the faulting
page — never for any later page. -/
theorem C3_fail_fast (C : Collaborators) (pdf_key filename url : String)
    (pre post : List String) (faultPage e context : String)
    (tokens : Nat) (jsons : List String) (calls : List (String × String))
    (n : Nat)
    (hpre : C.presign_s3url pdf_key = .ok url)
    (hext : C.get_text_and_tables_from_url url =
      .ok (some (pre ++ faultPage :: post)))
    (hrun : processPages C pre 1 0 [] "" = (.done tokens jsons context, calls))
    (hcnt : C.count_tokens faultPage = .ok n)
    (hfault : C.llm_processing context faultPage = .error e) :
    process_pdf C pdf_key filename = .ok
      { Records := [], TotalTokens := 0, WarningCodes := [],
        Error := "Failed to process page via llm_processing for page: "
          ++ toString (pre.length + 1) ++ ": " ++ e } ∧
    "Failed to process page via llm_processing for page: "
      ++ toString (pre.length + 1) ++ ": " ++ e ≠ "" ∧
    llm_calls C pdf_key = calls ++ [(context, faultPage)] := by
  have hstep := processPages_append C pre (faultPage :: post) 1 0 [] ""
    tokens jsons context calls hrun
  have hone : processPages C (faultPage :: post) (1 + pre.length)
      tokens jsons context =
      (.pageError ("Failed to process page via llm_processing for page: "
        ++ toString (1 + pre.length) ++ ": " ++ e), [(context, faultPage)]) := by
    rw [processPages, hcnt, hfault]
  have hcomm : 1 + pre.length = pre.length + 1 := Nat.add_comm 1 pre.length
  rw [hcomm] at hstep hone
  refine ⟨?_, ?_, ?_⟩
  · simp only [process_pdf, hpre, hext, hstep, hone]
  · intro hEq
    have hlen := congrArg String.length hEq
    rw [String.length_append, String.length_append, String.length_append]
      at hlen
    have hpos : 0 <
        ("Failed to process page via llm_processing for page: " : String).length :=
      by decide
    have hnil : ("" : String).length = 0 := rfl
    omega
  · simp only [llm_calls, hpre, hext, hstep, hone]

theorem C3_witness :
    process_pdf faultPage2C "k" "f" = .ok
      { Records := [], TotalTokens := 0, WarningCodes := [],
        Error :=
          "Failed to process page via llm_processing for page: 2: llm down" } ∧
    "Failed to process page via llm_processing for page: "
      ++ toString ((["P1"] : List String).length + 1) ++ ": " ++ "llm down" ≠ "" ∧
    llm_calls faultPage2C "k" = [("", "P1")] ++ [("O1", "P2")] :=
  C3_fail_fast faultPage2C "k" "f" "https://signed/k" ["P1"] ["P3"] "P2"
    "llm down" "O1" 2 ["O1"] [("", "P1")] 2 rfl rfl rfl rfl rfl

/-- Per-page token counts for the spec's P7 example: pages `"a"`, `"b"`,
`"c"` cost 10, 20 and 15 tokens. -/
def p7counts : String → Nat :=
  fun t => if t = "a" then 10 else if t = "b" then 20 else 15

/-- Collaborators for a fully successful 3-page run with token counts
10, 20, 15. -/
def p7C : Collaborators where
  presign_s3url := fun k => .ok ("https://signed/" ++ k)
  get_text_and_tables_from_url := fun _ => .ok (some ["a", "b", "c"])
  count_tokens := fun t => .ok (p7counts t)
  llm_processing := fun _ page => .ok (some ("out:" ++ page))
  combine_records := fun _ => .ok { Records := [] }

/-- C8: on a run where every collaborator call succeeds, `process_pdf`
returns a result whose `TotalTokens` is the sum of `count_tokens` over
every page plus the fixed overhead constant 4000, with `Error == ""`. -/
theorem C8_token_accounting (C : Collaborators)
    (pdf_key filename url : String) (pages : List String)
    (f : String → Nat) (ell : String → String → Option String)
    (hpre : C.presign_s3url pdf_key = .ok url)
    (hext : C.get_text_and_tables_from_url url = .ok (some pages))
    (hcount : ∀ t, C.count_tokens t = .ok (f t))
    (hllm : ∀ c t, C.llm_processing c t = .ok (ell c t))
    (hcomb : ∀ js, ∃ out, C.combine_records js = .ok out) :
    ∃ r, process_pdf C pdf_key filename = .ok r ∧
      r.TotalTokens = (pages.map f).sum + 4000 ∧
      r.Error = "" ∧ r.WarningCodes = [] := by
  obtain ⟨jsons', context', calls, hdone⟩ :=
    processPages_all_ok C f ell hcount hllm pages 1 0 [] ""
  obtain ⟨out, hout⟩ := hcomb jsons'
  have hfst : (processPages C pages 1 0 [] "").1 =
      .done (0 + (pages.map f).sum) jsons' context' := by rw [hdone]
  refine ⟨{ Records := out.Records, TotalTokens := (pages.map f).sum + 4000,
            WarningCodes := [], Error := "" }, ?_, rfl, rfl, rfl⟩
  simp only [process_pdf, hpre, hext, hfst, hout, Nat.zero_add]

theorem C8_witness :
    ∃ r, process_pdf p7C "k" "f" = .ok r ∧
      r.TotalTokens = 4045 ∧ r.Error = "" ∧ r.WarningCodes = [] := by
  obtain ⟨r, h1, h2, h3, h4⟩ := C8_token_accounting p7C "k" "f"
    "https://signed/k" ["a", "b", "c"] p7counts
    (fun _ page => some ("out:" ++ page)) rfl rfl (fun t => rfl)
    (fun c t => rfl) (fun js => ⟨{ Records := [] }, rfl⟩)
  refine ⟨r, h1, ?_, h3, h4⟩
  rw [h2]
  decide

/-- Bind on `Except` after a success reduces to the continuation. -/
theorem okBind {α β : Type} (a : α) (f : α → Except String β) :
    (Except.ok a >>= f) = f a := rfl

/-- Bind on `Except` after an error is the error. -/
theorem errorBind {α β : Type} (e : String) (f : α → Except String β) :
    ((Except.error e : Except String α) >>= f) = .error e := rfl

/-- Folding a step function over a list with a middle element the step
ignores equals folding over the list without it. -/
theorem foldlM_middle_skip {α : Type}
    (g : List (String × Json) → α → Except String (List (String × Json)))
    (x : α) (hx : ∀ m, g m x = .ok m) :
    ∀ (pre post : List α) (m : List (String × Json)),
      (pre ++ x :: post).foldlM g m = (pre ++ post).foldlM g m := by
  intro pre
  induction pre with
  | nil =>
    intro post m
    show (x :: post).foldlM g m = post.foldlM g m
    rw [List.foldlM_cons, hx m, okBind]
  | cons y pre ih =>
    intro post m
    show (y :: (pre ++ x :: post)).foldlM g m = (y :: (pre ++ post)).foldlM g m
    rw [List.foldlM_cons, List.foldlM_cons]
    rcases hy : g m y with e | m'
    · rfl
    · rw [okBind, okBind]
      exact ih post m'

namespace all_helpers

/-- C6: a record whose trimmed claim identifier is empty (because the
`value` is empty, whitespace-only, or absent) is dropped by
`combine_records`: it leaves the mapping unchanged wherever it occurs in a
record sequence, so the other records' order and content are unaffected. -/
theorem C6_unidentifiable_record_dropped (r : Json)
    (h : claimIdOf r = .ok "") :
    (∀ m, processRecord m r = .ok m) ∧
    ∀ (pre post : List Json) (m : List (String × Json)),
      (pre ++ r :: post).foldlM processRecord m =
        (pre ++ post).foldlM processRecord m := by
  have hskip : ∀ m, processRecord m r = .ok m := by
    intro m
    rw [processRecord, h]
    simp
  exact ⟨hskip, fun pre post m => foldlM_middle_skip processRecord r hskip pre post m⟩

/-- A record whose claim value is whitespace-only. -/
def wsRecord : Json :=
  .obj [("Claim", .obj [("ClaimNum", .obj [("value", .str "   ")])]),
        ("Procs", .arr [.str "p"])]

/-- The ClaimNum wrapper object for a claim id. -/
def claimObj (cid : String) : Json :=
  .obj [("ClaimNum", .obj [("value", .str cid)])]

/-- A well-formed extracted record with a claim id and a Procs list. -/
def fragRecord (cid : String) (procs : List Json) : Json :=
  .obj [("Claim", claimObj cid), ("Procs", .arr procs)]

/-- A parseable fragment blob carrying one record. -/
def fragBlob (cid : String) (procs : List Json) : Blob :=
  { empty := false,
    parse := some (.obj [("Records", .arr [fragRecord cid procs])]) }

/-- A fragment that `json.loads` rejects. -/
def badBlob : Blob := { empty := false, parse := none }

theorem C6_witness :
    processRecord [("123", fragRecord "123" [.str "a"])] wsRecord =
      .ok [("123", fragRecord "123" [.str "a"])] :=
  (C6_unidentifiable_record_dropped wsRecord rfl).1
    [("123", fragRecord "123" [.str "a"])]

/-- C7: a fragment that is not parseable as JSON is skipped by
`combine_records` without aborting the merge: it leaves the mapping
unchanged, and the output over the whole sequence equals the output over
the sequence with the malformed fragment removed. -/
theorem C7_malformed_fragment_skipped (b : Blob) (h : b.parse = none) :
    (∀ m, processBlob m b = .ok m) ∧
    ∀ (pre post : List Blob),
      combine_records (pre ++ b :: post) = combine_records (pre ++ post) := by
  have hskip : ∀ m, processBlob m b = .ok m := by
    intro m
    rw [processBlob]
    have hrb : recordsOfBlob b = .ok [] := by
      rcases hbe : b.empty with _ | _ <;> simp [recordsOfBlob, h, hbe]
    rw [hrb]
    rfl
  refine ⟨hskip, fun pre post => ?_⟩
  have hmap : combinedMapOf (pre ++ b :: post) = combinedMapOf (pre ++ post) :=
    foldlM_middle_skip processBlob b hskip pre post []
  rw [combine_records, combine_records, hmap]

theorem C7_witness :
    combine_records [fragBlob "123" [.str "A"], badBlob, fragBlob "456" []] =
      combine_records [fragBlob "123" [.str "A"], fragBlob "456" []] :=
  (C7_malformed_fragment_skipped badBlob rfl).2
    [fragBlob "123" [.str "A"]] [fragBlob "456" []]

end all_helpers

/-- Setting one key of a dict leaves lookups of every other key
unchanged. -/
theorem jGet_objSet_ne (fields : List (String × Json)) (k k' : String)
    (v : Json) (h : k' ≠ k) :
    jGet (objSet fields k v) k' = jGet fields k' := by
  induction fields with
  | nil =>
    have hkk' : (k == k') = false := by simp [Ne.symm h]
    simp [objSet, jGet, List.find?, hkk']
  | cons p rest ih =>
    by_cases hpk : p.1 = k
    · have hkk' : (k == k') = false := by
        simp [Ne.symm h]
      have hpk' : (p.1 == k') = false := by
        simp [hpk, Ne.symm h]
      simp [objSet, hpk, jGet, List.find?, hkk', hpk']
    · by_cases hpk' : p.1 = k'
      · simp [objSet, hpk, jGet, List.find?, hpk', h]
      · have h1 : (p.1 == k) = false := by simp [hpk]
        have h2 : (p.1 == k') = false := by simp [hpk']
        simpa [objSet, h1, jGet, List.find?, h2] using ih

namespace all_helpers

/-- C4: when `combine_records` meets a record whose claim identifier `cid`
is already in the mapping, the new record's `Procs` list is appended onto
the existing record's `Procs` list (order of appearance preserved), the
updated record is stored back under `cid`, and every field of the existing
record other than `"Procs"` is left untouched.  In particular two
fragments carrying claim identifier `"123"` with `Procs` lists `[A]` and
`[B]` merge to a single record whose `Procs` is `[A, B]`. -/
theorem C4_duplicate_appends_procs
    (combined : List (String × Json)) (cid : String)
    (efields rfields : List (String × Json)) (elist nlist : List Json)
    (hid : claimIdOf (.obj rfields) = .ok cid)
    (hne : cid ≠ "")
    (hmem : jGet combined cid = some (.obj efields))
    (he : pyOr ((jGet efields "Procs").getD .null) (.arr []) = .arr elist)
    (hn : pyOr ((jGet rfields "Procs").getD .null) (.arr []) = .arr nlist) :
    processRecord combined (.obj rfields) =
      .ok (objSet combined cid
        (.obj (objSet efields "Procs" (.arr (elist ++ nlist))))) ∧
    (∀ k, k ≠ "Procs" →
      jGet (objSet efields "Procs" (.arr (elist ++ nlist))) k =
        jGet efields k) ∧
    ∀ A B : Json,
      combine_records [fragBlob "123" [A], fragBlob "123" [B]] =
        .ok [.obj [("Claim", claimObj "123"), ("Procs", .arr [A, B])]] := by
  refine ⟨?_, ?_, ?_⟩
  · rw [processRecord, hid]
    simp only [if_neg hne, hmem, mergeInto, he, hn, pyElems]
  · intro k hk
    exact jGet_objSet_ne efields "Procs" k (.arr (elist ++ nlist)) hk
  · intro A B
    rfl

theorem C4_witness :
    processRecord [("123", fragRecord "123" [.str "A"])]
        (fragRecord "123" [.str "B"]) =
      .ok [("123", .obj [("Claim", claimObj "123"),
                         ("Procs", .arr [.str "A", .str "B"])])] :=
  (C4_duplicate_appends_procs [("123", fragRecord "123" [.str "A"])] "123"
    [("Claim", claimObj "123"), ("Procs", .arr [.str "A"])]
    [("Claim", claimObj "123"), ("Procs", .arr [.str "B"])]
    [.str "A"] [.str "B"] rfl (by decide) rfl rfl rfl).1

end all_helpers

/-- A lookup that misses means the key is not among the dict's keys. -/
theorem jGet_eq_none (fields : List (String × Json)) (k : String) :
    jGet fields k = none ↔ k ∉ fields.map Prod.fst := by
  induction fields with
  | nil => simp [jGet]
  | cons p rest ih =>
    by_cases hpk : p.1 = k
    · simp [jGet, List.find?, hpk]
    · have h1 : (p.1 == k) = false := by simp [hpk]
      simp only [jGet, List.find?, h1] at ih ⊢
      simp [ih, hpk, Ne.symm hpk]

/-- A successful lookup exhibits a member of the dict. -/
theorem jGet_mem (fields : List (String × Json)) (k : String) (v : Json)
    (h : jGet fields k = some v) : (k, v) ∈ fields := by
  rw [jGet] at h
  rcases hf : fields.find? (fun p => p.1 == k) with _ | p <;> rw [hf] at h
  · simp at h
  · simp only [Option.map_some'] at h
    have hmem := List.mem_of_find?_eq_some hf
    have hp := List.find?_some hf
    simp only [beq_iff_eq] at hp
    have : p = (k, v) := by
      rcases p with ⟨pk, pv⟩
      simp only at hp h
      injection h with h
      rw [hp, h]
    rwa [this] at hmem

/-- Setting a key that is present leaves the key list unchanged. -/
theorem objSet_map_fst (fields : List (String × Json)) (k : String)
    (v : Json) (hmem : k ∈ fields.map Prod.fst) :
    (objSet fields k v).map Prod.fst = fields.map Prod.fst := by
  induction fields with
  | nil => simp at hmem
  | cons p rest ih =>
    by_cases hpk : p.1 = k
    · simp [objSet, hpk]
    · have h1 : (p.1 == k) = false := by simp [hpk]
      have hmem' : k ∈ rest.map Prod.fst := by
        simp only [List.map_cons, List.mem_cons] at hmem
        rcases hmem with h | h
        · exact absurd h.symm hpk
        · exact h
      simp [objSet, h1, ih hmem']

/-- Every member of an updated dict is the updated pair or an original
member. -/
theorem mem_objSet (fields : List (String × Json)) (k : String) (v : Json)
    (p : String × Json) (h : p ∈ objSet fields k v) :
    p = (k, v) ∨ p ∈ fields := by
  induction fields with
  | nil =>
    simp [objSet] at h
    exact Or.inl h
  | cons q rest ih =>
    by_cases hqk : q.1 = k
    · have h1 : (q.1 == k) = true := by simp [hqk]
      rw [objSet] at h
      simp only [h1, if_true] at h
      rcases List.mem_cons.mp h with h' | h'
      · exact Or.inl h'
      · exact Or.inr (List.mem_cons_of_mem _ h')
    · have h1 : (q.1 == k) = false := by simp [hqk]
      rw [objSet] at h
      simp only [h1] at h
      rcases List.mem_cons.mp h with h' | h'
      · exact Or.inr (by simp [h'])
      · rcases ih h' with h'' | h''
        · exact Or.inl h''
        · exact Or.inr (List.mem_cons_of_mem _ h'')

namespace all_helpers

/-- The claim id of a record object only depends on its `"Claim"` field. -/
theorem claimIdOf_obj_congr (fs fs' : List (String × Json))
    (h : jGet fs "Claim" = jGet fs' "Claim") :
    claimIdOf (.obj fs) = claimIdOf (.obj fs') := by
  simp only [claimIdOf, pyGetAttr, h]

end all_helpers

/-- Append a key to an ordered key list unless it is already present
(first-occurrence order). -/
def insertFirst (ks : List String) (k : String) : List String :=
  if k ∈ ks then ks else ks ++ [k]

/-- Folding `insertFirst` preserves distinctness of the key list. -/
theorem foldl_insertFirst_nodup :
    ∀ (ids ks : List String), ks.Nodup → (ids.foldl insertFirst ks).Nodup := by
  intro ids
  induction ids with
  | nil => intro ks h; exact h
  | cons i ids ih =>
    intro ks h
    rw [List.foldl_cons]
    apply ih
    rw [insertFirst]
    by_cases hm : i ∈ ks
    · simpa [hm] using h
    · simp only [hm, if_false]
      simp [List.nodup_append, h, hm]

/-- `mapM` over an append, when both halves succeed. -/
theorem mapM_ok_append {α β : Type} (f : α → Except String β) :
    ∀ (xs ys : List α) (as bs : List β),
      xs.mapM f = .ok as → ys.mapM f = .ok bs →
      (xs ++ ys).mapM f = .ok (as ++ bs) := by
  intro xs
  induction xs with
  | nil =>
    intro ys as bs hx hy
    have hx' : (Except.ok ([] : List β) : Except String (List β)) = .ok as := hx
    injection hx' with hx'
    subst hx'
    simpa using hy
  | cons x xs ih =>
    intro ys as bs hx hy
    rw [List.mapM_cons] at hx
    rcases hfx : f x with e | b <;> rw [hfx] at hx
    · exact (Except.noConfusion hx)
    rw [okBind] at hx
    rcases hxs : xs.mapM f with e | as' <;> rw [hxs] at hx
    · exact (Except.noConfusion hx)
    rw [okBind] at hx
    have hx' : (Except.ok (b :: as') : Except String (List β)) = .ok as := hx
    injection hx' with hx'
    subst hx'
    rw [List.cons_append, List.mapM_cons, hfx, okBind,
      ih ys as' bs hxs hy, okBind]
    rfl

namespace all_helpers

/-- Case analysis of a successful `processRecord` step: the record's claim
id resolves, and either it is empty and the mapping is unchanged, or it is
new and the record is appended, or it is a duplicate and the stored record
is updated in place at its `"Procs"` key. -/
theorem processRecord_ok_cases (m m' : List (String × Json)) (r : Json)
    (h : processRecord m r = .ok m') :
    ∃ cid, claimIdOf r = .ok cid ∧
      ((cid = "" ∧ m' = m) ∨
       (cid ≠ "" ∧ jGet m cid = none ∧ m' = m ++ [(cid, r)]) ∨
       (cid ≠ "" ∧ ∃ efields w, jGet m cid = some (.obj efields) ∧
         m' = objSet m cid (.obj (objSet efields "Procs" w)))) := by
  rw [processRecord] at h
  rcases hcid : claimIdOf r with e | cid <;> simp only [hcid] at h
  · exact (Except.noConfusion h)
  refine ⟨cid, rfl, ?_⟩
  by_cases hc : cid = ""
  · rw [if_pos hc] at h
    injection h with h
    exact Or.inl ⟨hc, h.symm⟩
  rw [if_neg hc] at h
  rcases hg : jGet m cid with _ | ex <;> simp only [hg] at h
  · injection h with h
    exact Or.inr (Or.inl ⟨hc, rfl, h.symm⟩)
  cases ex with
  | null => exact (Except.noConfusion h)
  | bool b => exact (Except.noConfusion h)
  | num n => exact (Except.noConfusion h)
  | str s => exact (Except.noConfusion h)
  | arr elts => exact (Except.noConfusion h)
  | obj efields =>
  cases r with
  | null => exact (Except.noConfusion h)
  | bool b => exact (Except.noConfusion h)
  | num n => exact (Except.noConfusion h)
  | str s => exact (Except.noConfusion h)
  | arr elts => exact (Except.noConfusion h)
  | obj rfields =>
  rw [mergeInto] at h
  rcases hpe : pyOr ((jGet efields "Procs").getD .null) (.arr [])
      with _ | b | n | st | elist | fs <;> simp only [hpe] at h
  · exact (Except.noConfusion h)
  · exact (Except.noConfusion h)
  · exact (Except.noConfusion h)
  · exact (Except.noConfusion h)
  · rcases hpn : pyElems (pyOr ((jGet rfields "Procs").getD .null) (.arr []))
        with e | nlist <;> simp only [hpn] at h
    · exact (Except.noConfusion h)
    injection h with h
    exact Or.inr (Or.inr ⟨hc, efields, .arr (elist ++ nlist), rfl, h.symm⟩)
  · exact (Except.noConfusion h)

end all_helpers

namespace all_helpers

/-- Folding the records of one payload: every record's claim id resolves
(`ids`), the key list evolves by first-occurrence insertion of the
non-empty ids, and the stored-record invariant (each entry's record still
carries its key as claim id) is preserved. -/
theorem foldRecords_spec :
    ∀ (rs : List Json) (m m' : List (String × Json)),
      rs.foldlM processRecord m = .ok m' →
      (∃ ids, rs.mapM claimIdOf = .ok ids ∧
        m'.map Prod.fst =
          (ids.filter (fun s => s != "")).foldl insertFirst (m.map Prod.fst)) ∧
      ((∀ p ∈ m, claimIdOf p.2 = .ok p.1 ∧ p.1 ≠ "") →
        (∀ p ∈ m', claimIdOf p.2 = .ok p.1 ∧ p.1 ≠ "")) := by
  intro rs
  induction rs with
  | nil =>
    intro m m' h
    rw [List.foldlM_nil] at h
    have h' : (Except.ok m : Except String (List (String × Json))) = .ok m' := h
    injection h' with h'
    subst h'
    exact ⟨⟨[], rfl, rfl⟩, fun hm => hm⟩
  | cons r rs ih =>
    intro m m' h
    rw [List.foldlM_cons] at h
    rcases hr : processRecord m r with e | m1 <;> rw [hr] at h
    · exact (Except.noConfusion h)
    rw [okBind] at h
    obtain ⟨⟨ids, hids, hkeys⟩, hinv⟩ := ih m1 m' h
    obtain ⟨cid, hcid, hcases⟩ := processRecord_ok_cases m m1 r hr
    have hmapm : (r :: rs).mapM claimIdOf = .ok (cid :: ids) := by
      rw [List.mapM_cons, hcid, okBind, hids, okBind]
      rfl
    constructor
    · refine ⟨cid :: ids, hmapm, ?_⟩
      rcases hcases with ⟨hc, hm1⟩ | ⟨hc, hnone, hm1⟩ | ⟨hc, efields, w, hsome, hm1⟩
      · have hfil : (cid :: ids).filter (fun s => s != "") =
            ids.filter (fun s => s != "") := by
          simp [List.filter, hc]
        rw [hfil, hkeys, hm1]
      · have hne' : (cid != "") = true := by simpa using hc
        have hfil : (cid :: ids).filter (fun s => s != "") =
            cid :: ids.filter (fun s => s != "") := by
          simp [List.filter, hne']
        have hnotmem : cid ∉ m.map Prod.fst := (jGet_eq_none m cid).mp hnone
        have hins : insertFirst (m.map Prod.fst) cid = m.map Prod.fst ++ [cid] := by
          rw [insertFirst, if_neg hnotmem]
        rw [hfil, List.foldl_cons, hins, hkeys, hm1]
        simp
      · have hne' : (cid != "") = true := by simpa using hc
        have hfil : (cid :: ids).filter (fun s => s != "") =
            cid :: ids.filter (fun s => s != "") := by
          simp [List.filter, hne']
        have hmem : cid ∈ m.map Prod.fst := by
          have := jGet_mem m cid _ hsome
          exact List.mem_map.mpr ⟨(cid, .obj efields), this, rfl⟩
        have hins : insertFirst (m.map Prod.fst) cid = m.map Prod.fst := by
          rw [insertFirst, if_pos hmem]
        have hkeys1 : m1.map Prod.fst = m.map Prod.fst := by
          rw [hm1]
          exact objSet_map_fst m cid _ hmem
        rw [hfil, List.foldl_cons, hins, hkeys, hkeys1]
    · intro hm
      apply hinv
      intro p hp
      rcases hcases with ⟨hc, hm1⟩ | ⟨hc, hnone, hm1⟩ | ⟨hc, efields, w, hsome, hm1⟩
      · exact hm p (hm1 ▸ hp)
      · rw [hm1] at hp
        rcases List.mem_append.mp hp with hp' | hp'
        · exact hm p hp'
        · have : p = (cid, r) := by simpa using hp'
          rw [this]
          exact ⟨hcid, hc⟩
      · rw [hm1] at hp
        rcases mem_objSet m cid _ p hp with hp' | hp'
        · rw [hp']
          refine ⟨?_, hc⟩
          have hclaim : jGet (objSet efields "Procs" w) "Claim" =
              jGet efields "Claim" :=
            jGet_objSet_ne efields "Procs" "Claim" w (by decide)
          have hcongr := claimIdOf_obj_congr _ _ hclaim
          have hx := hm (cid, .obj efields) (jGet_mem m cid _ hsome)
          simpa [hcongr] using hx.1
        · exact hm p hp'

end all_helpers

namespace all_helpers

/-- Folding all blobs: the fragments' record lists and claim ids all
resolve, the key list of the mapping is the first-occurrence fold of the
non-empty claim ids over all records in input order, and the stored-record
invariant is preserved. -/
theorem foldBlobs_spec :
    ∀ (blobs : List Blob) (m m' : List (String × Json)),
      blobs.foldlM processBlob m = .ok m' →
      (∃ rss ids, blobs.mapM recordsOfBlob = .ok rss ∧
        rss.flatten.mapM claimIdOf = .ok ids ∧
        m'.map Prod.fst =
          (ids.filter (fun s => s != "")).foldl insertFirst (m.map Prod.fst)) ∧
      ((∀ p ∈ m, claimIdOf p.2 = .ok p.1 ∧ p.1 ≠ "") →
        (∀ p ∈ m', claimIdOf p.2 = .ok p.1 ∧ p.1 ≠ "")) := by
  intro blobs
  induction blobs with
  | nil =>
    intro m m' h
    rw [List.foldlM_nil] at h
    have h' : (Except.ok m : Except String (List (String × Json))) = .ok m' := h
    injection h' with h'
    subst h'
    exact ⟨⟨[], [], rfl, rfl, rfl⟩, fun hm => hm⟩
  | cons b blobs ih =>
    intro m m' h
    rw [List.foldlM_cons] at h
    rcases hb : processBlob m b with e | m1 <;> rw [hb] at h
    · exact (Except.noConfusion h)
    rw [okBind] at h
    rw [processBlob] at hb
    rcases hrb : recordsOfBlob b with e | recs <;> simp only [hrb] at hb
    · exact (Except.noConfusion hb)
    obtain ⟨⟨ids1, hids1, hkeys1⟩, hinv1⟩ := foldRecords_spec recs m m1 hb
    obtain ⟨⟨rss, ids2, hrss, hids2, hkeys2⟩, hinv2⟩ := ih m1 m' h
    refine ⟨⟨recs :: rss, ids1 ++ ids2, ?_, ?_, ?_⟩, fun hm => hinv2 (hinv1 hm)⟩
    · rw [List.mapM_cons, hrb, okBind, hrss, okBind]
      rfl
    · exact mapM_ok_append claimIdOf recs rss.flatten ids1 ids2 hids1 hids2
    · rw [hkeys2, hkeys1, List.filter_append, List.foldl_append]

/-- C5: whenever the merge's internal mapping resolves to `m`,
`combine_records` returns exactly the mapping's values; the claim
identifiers (keys) are pairwise distinct; each returned record still
carries its key as its claim id; and the key list is the
first-occurrence fold of the non-empty claim ids of all records in input
order — so N distinct identifiers yield exactly N records. -/
theorem C5_distinct_keys_first_occurrence (blobs : List Blob)
    (m : List (String × Json))
    (h : combinedMapOf blobs = .ok m) :
    combine_records blobs = .ok (m.map Prod.snd) ∧
    (m.map Prod.fst).Nodup ∧
    (∀ p ∈ m, claimIdOf p.2 = .ok p.1 ∧ p.1 ≠ "") ∧
    ∃ rss ids, blobs.mapM recordsOfBlob = .ok rss ∧
      rss.flatten.mapM claimIdOf = .ok ids ∧
      m.map Prod.fst = (ids.filter (fun s => s != "")).foldl insertFirst [] ∧
      (m.map Prod.snd).length =
        ((ids.filter (fun s => s != "")).foldl insertFirst []).length := by
  have h' : blobs.foldlM processBlob [] = .ok m := h
  obtain ⟨⟨rss, ids, hrss, hids, hkeys⟩, hinv⟩ := foldBlobs_spec blobs [] m h'
  have hkeys' : m.map Prod.fst =
      (ids.filter (fun s => s != "")).foldl insertFirst [] := by
    simpa using hkeys
  refine ⟨?_, ?_, hinv (by simp), rss, ids, hrss, hids, hkeys', ?_⟩
  · rw [combine_records, h]
  · rw [hkeys']
    exact foldl_insertFirst_nodup _ [] List.nodup_nil
  · rw [← hkeys']
    simp

/-- Three fragments with claim ids 123, 456, 123. -/
def C5blobs : List Blob :=
  [fragBlob "123" [.str "A"], fragBlob "456" [.str "B"],
   fragBlob "123" [.str "C"]]

/-- The internal mapping `combine_records` builds for `C5blobs`. -/
def C5m : List (String × Json) :=
  [("123", .obj [("Claim", claimObj "123"),
                 ("Procs", .arr [.str "A", .str "C"])]),
   ("456", fragRecord "456" [.str "B"])]

theorem C5_witness : (C5m.map Prod.fst).Nodup :=
  (C5_distinct_keys_first_occurrence C5blobs C5m rfl).2.1

end all_helpers
